import Mathlib

/-!
Verification of the interactive benefit/MTR/conservation calculator of the
Missouri transitional-benefits presentation.

The computational core lives in two components:
* `src/app/src/components/CtResults.tsx` provides `computeBenefit`,
  `computeMtr` and `computeIntegral` (the MTR-comparison tab);
* `src/app/src/components/TwoPeriodModel.tsx` provides `computePvBenefits`
  and the inline entry-cliff accumulation (`extCliffVal`).

All arithmetic in the source is ordinary JavaScript number arithmetic on
small exact values; we embed it over `ℚ`.
-/

namespace MoBenefits

/-- Benefit design variants, the `design` union type of `computeBenefit`. -/
inductive Design where
  | cliff
  | phase_out
  | universal
deriving DecidableEq, Repr

open Design

/-- Translation of `computeBenefit` (CtResults.tsx): piecewise benefit level
at a given income for the three designs. -/
def computeBenefit (income benefitAmount threshold phaseOutRate : ℚ)
    (design : Design) : ℚ :=
  match design with
  | .cliff => if income ≤ threshold then benefitAmount else 0
  | .phase_out =>
      if income ≤ threshold then benefitAmount
      else max (benefitAmount - phaseOutRate * (income - threshold)) 0
  | .universal => benefitAmount

/-- Translation of `computeMtr` (CtResults.tsx): forward difference of the
benefit with step `dy = 100`, negated, then multiplied by 100 for display. -/
def computeMtr (incomes : List ℚ) (benefitAmount threshold phaseOutRate : ℚ)
    (design : Design) : List ℚ :=
  incomes.map fun y =>
    let b1 := computeBenefit y benefitAmount threshold phaseOutRate design;
    let b2 := computeBenefit (y + 100) benefitAmount threshold phaseOutRate design;
    -(b2 - b1) / 100 * 100

/-- Translation of `computeIntegral` (CtResults.tsx): left-rectangle sum of
the percentage MTR series (divided back by 100) over consecutive grid gaps. -/
def computeIntegral (incomes : List ℚ) (mtrPcts : List ℚ) : ℚ :=
  ∑ i ∈ Finset.range (incomes.length - 1),
    mtrPcts.getD i 0 / 100 * (incomes.getD (i + 1) 0 - incomes.getD i 0)

/-- Translation of `computePvBenefits` (TwoPeriodModel.tsx): present value of
benefits, either a single period (standard) or `1 + extensionPeriods`
discounted periods (extended), paid only below the threshold. -/
def computePvBenefits (income benefitAmount threshold : ℚ)
    (extensionPeriods : ℕ) (discountRate : ℚ) (extended : Bool) : ℚ :=
  if !extended then
    if income ≤ threshold then benefitAmount else 0
  else if income ≤ threshold then
    ∑ t ∈ Finset.range (1 + extensionPeriods),
      benefitAmount / (1 + discountRate) ^ t
  else 0

/-- Translation of the `extCliffVal` accumulation loop (TwoPeriodModel.tsx):
the extended entry cliff, a sum of discounted benefits over
`1 + extensionPeriods` periods. -/
def extCliffVal (extensionPeriods : ℕ) (discountRate benefitAmount : ℚ) : ℚ :=
  ∑ t ∈ Finset.range (1 + extensionPeriods),
    benefitAmount / (1 + discountRate) ^ t

/-- Cliff point record of the specification's cliff detector. -/
structure CliffPoint where
  incomeIndex : ℕ
  incomeValue : ℚ
  rate : ℚ
deriving DecidableEq, Repr

/-- Modelled from the spec: the `findCliffs` detector of specification
section 4.5 has no standalone implementation under `src/`; the spec describes
it as a linear scan reporting every index where the rate magnitude exceeds
the threshold rate. -/
def findCliffs (grid rateSeries : List ℚ) (thresholdRate : ℚ) :
    List CliffPoint :=
  (List.range rateSeries.length).filterMap fun i =>
    let r := rateSeries.getD i 0
    if thresholdRate < |r| then some ⟨i, grid.getD i 0, r⟩ else none

/-- Clamp of an income into the phase-out band, helper for the
conservation-integral analysis of the phase-out benefit. -/
def clampQ (lo hi y : ℚ) : ℚ := max lo (min y hi)

section ClampLemmas

variable (lo hi y y₁ y₂ : ℚ)

lemma clampQ_mono (h : y₁ ≤ y₂) : clampQ lo hi y₁ ≤ clampQ lo hi y₂ := by
  unfold clampQ
  exact max_le_max le_rfl (min_le_min h le_rfl)

lemma clampQ_sub_le (h : y₁ ≤ y₂) :
    clampQ lo hi y₂ - clampQ lo hi y₁ ≤ y₂ - y₁ := by
  unfold clampQ
  rcases le_total y₁ hi with h1 | h1 <;> rcases le_total y₂ hi with h2 | h2 <;>
    rcases le_total lo y₁ with h3 | h3 <;> rcases le_total lo y₂ with h4 | h4 <;>
    simp [max_def, min_def] <;> split_ifs <;> linarith

lemma clampQ_of_le (h : y ≤ lo) : clampQ lo hi y = lo := by
  unfold clampQ
  rw [max_eq_left]
  exact le_trans (min_le_left _ _) h

lemma clampQ_of_ge (hlo : lo ≤ hi) (h : hi ≤ y) : clampQ lo hi y = hi := by
  unfold clampQ
  rw [min_eq_right h, max_eq_right hlo]

lemma clampQ_of_mem (h1 : lo ≤ y) (h2 : y ≤ hi) : clampQ lo hi y = y := by
  unfold clampQ
  rw [min_eq_left h2, max_eq_right h1]

end ClampLemmas

/-- Closed form of the phase-out benefit: with a positive phase-out rate the
benefit equals the rate times the distance from the clamped income to the
exhaustion point `threshold + benefitAmount / phaseOutRate`. -/
lemma computeBenefit_phase_out_eq (y b th r : ℚ) (hr : 0 < r) (hb : 0 ≤ b) :
    computeBenefit y b th r phase_out
      = r * ((th + b / r) - clampQ th (th + b / r) y) := by
  have hrne : r ≠ 0 := ne_of_gt hr
  have hbr : r * (b / r) = b := by field_simp
  have hsplit : r * (th + b / r) = r * th + b := by rw [mul_add, hbr]
  have hthZ : th ≤ th + b / r := by
    have h0 : 0 ≤ b / r := div_nonneg hb (le_of_lt hr)
    linarith
  unfold computeBenefit
  by_cases hy : y ≤ th
  · rw [clampQ_of_le _ _ _ hy]
    simp only [if_pos hy]
    linear_combination -hbr
  · simp only [if_neg hy]
    push_neg at hy
    by_cases hyZ : y ≤ th + b / r
    · have h2 : r * y ≤ r * (th + b / r) :=
        mul_le_mul_of_nonneg_left hyZ (le_of_lt hr)
      have hside : (0 : ℚ) ≤ b - r * (y - th) := by linarith
      rw [clampQ_of_mem _ _ _ (le_of_lt hy) hyZ, max_eq_left hside]
      linear_combination -hbr
    · push_neg at hyZ
      have h2 : r * (th + b / r) ≤ r * y :=
        mul_le_mul_of_nonneg_left (le_of_lt hyZ) (le_of_lt hr)
      have hside : b - r * (y - th) ≤ 0 := by linarith
      rw [clampQ_of_ge _ _ _ hthZ (le_of_lt hyZ), max_eq_right hside]
      ring

/-- Shift identity for range sums, used to realign the forward-difference
series with the grid. -/
lemma sum_range_shift (g : ℕ → ℚ) (q m : ℕ) :
    ∑ i ∈ Finset.range m, g (q + i)
      = ∑ j ∈ Finset.range (q + m), g j - ∑ j ∈ Finset.range q, g j := by
  rw [Finset.sum_range_add]
  ring

/-- C1: for every income and every parameter record with nonnegative benefit
amount and threshold and a phase-out rate in [0,1], `computeBenefit` returns
the cliff step, the floored linear phase-out, and the unconditional
universal amount respectively. -/
theorem c1_computeBenefit_designs (income b th r : ℚ)
    (hb : 0 ≤ b) (hth : 0 ≤ th) (hr0 : 0 ≤ r) (hr1 : r ≤ 1) :
    (computeBenefit income b th r cliff = if income ≤ th then b else 0) ∧
    (computeBenefit income b th r phase_out =
      if income ≤ th then b else max (b - r * (income - th)) 0) ∧
    computeBenefit income b th r universal = b :=
  ⟨rfl, rfl, rfl⟩

/-- Witness for C1 at income 31000, benefit 5000, threshold 30000, rate 1/2. -/
theorem c1_computeBenefit_designs_witness :
    ((0:ℚ) ≤ 5000 ∧ (0:ℚ) ≤ 30000 ∧ (0:ℚ) ≤ 1/2 ∧ (1/2:ℚ) ≤ 1) ∧
    ((computeBenefit 31000 5000 30000 (1/2) cliff
        = if (31000:ℚ) ≤ 30000 then 5000 else 0) ∧
     (computeBenefit 31000 5000 30000 (1/2) phase_out =
        if (31000:ℚ) ≤ 30000 then 5000 else max (5000 - 1/2 * (31000 - 30000)) 0) ∧
     computeBenefit 31000 5000 30000 (1/2) universal = 5000) :=
  ⟨by norm_num,
   c1_computeBenefit_designs 31000 5000 30000 (1/2)
     (by norm_num) (by norm_num) (by norm_num) (by norm_num)⟩

/-- C3 counterexample: on a cliff at the threshold the unit-fraction forward
difference is 50 but the corresponding `computeMtr` entry is 5000; the
returned series is pre-multiplied by 100, not a unit fraction. -/
theorem c3_counterexample :
    -(computeBenefit (30000 + 100) 5000 30000 (1/2) cliff
        - computeBenefit 30000 5000 30000 (1/2) cliff) / 100 = 50 ∧
    (computeMtr [30000] 5000 30000 (1/2) cliff).getD 0 0 = 5000 ∧
    (5000 : ℚ) ≠ 50 := by
  refine ⟨by norm_num [computeBenefit], ?_, by norm_num⟩
  norm_num [computeMtr, computeBenefit]

/-- C3 amended: each `computeMtr` entry is the negated forward difference of
the benefit over step 100, multiplied by 100 — a percentage, not a unit
fraction. -/
theorem c3_computeMtr_percent (incomes : List ℚ) (b th r : ℚ) (d : Design)
    (i : ℕ) (hi : i < incomes.length) :
    (computeMtr incomes b th r d).getD i 0 =
      -(computeBenefit (incomes.getD i 0 + 100) b th r d
          - computeBenefit (incomes.getD i 0) b th r d) / 100 * 100 := by
  unfold computeMtr
  rw [List.getD_eq_getElem?_getD, List.getElem?_map, List.getD_eq_getElem?_getD,
    List.getElem?_eq_getElem hi]
  rfl

/-- Witness for C3's amended statement at the first point of a two-point
grid. -/
theorem c3_computeMtr_percent_witness :
    0 < ([30000, 31000] : List ℚ).length ∧
    (computeMtr [30000, 31000] 5000 30000 (1/2) phase_out).getD 0 0 =
      -(computeBenefit (([30000, 31000] : List ℚ).getD 0 0 + 100) 5000 30000 (1/2) phase_out
          - computeBenefit (([30000, 31000] : List ℚ).getD 0 0) 5000 30000 (1/2) phase_out)
        / 100 * 100 :=
  ⟨by simp,
   c3_computeMtr_percent [30000, 31000] 5000 30000 (1/2) phase_out 0 (by simp)⟩

/-- C4: extended-mode present value is the discounted sum over
`1 + extensionPeriods` periods below the threshold and 0 above it, and the
degenerate zero-extension case below the threshold returns exactly the
benefit amount. -/
theorem c4_computePvBenefits_extended (income b th d : ℚ) (T : ℕ)
    (hb : 0 ≤ b) (hth : 0 ≤ th) (hd : 0 ≤ d) :
    (computePvBenefits income b th T d true =
      if income ≤ th then
        ∑ t ∈ Finset.range (1 + T), b / (1 + d) ^ t
      else 0) ∧
    (T = 0 → income ≤ th → computePvBenefits income b th T d true = b) := by
  constructor
  · unfold computePvBenefits
    simp
  · rintro rfl hinc
    unfold computePvBenefits
    simp [hinc]

/-- Witness for C4 at income 20000, threshold 30000, zero extension. -/
theorem c4_computePvBenefits_extended_witness :
    ((0:ℚ) ≤ 5000 ∧ (0:ℚ) ≤ 30000 ∧ (0:ℚ) ≤ 1/20) ∧
    ((computePvBenefits 20000 5000 30000 0 (1/20) true =
        if (20000:ℚ) ≤ 30000 then
          ∑ t ∈ Finset.range (1 + 0), (5000:ℚ) / (1 + 1/20) ^ t
        else 0) ∧
     ((0:ℕ) = 0 → (20000:ℚ) ≤ 30000 →
        computePvBenefits 20000 5000 30000 0 (1/20) true = 5000)) :=
  ⟨by norm_num,
   c4_computePvBenefits_extended 20000 5000 30000 (1/20) 0
     (by norm_num) (by norm_num) (by norm_num)⟩

/-- C5: the spec-modelled cliff detector reports exactly the indices whose
rate magnitude strictly exceeds the threshold rate 1; indices with rate
below -1 are included, a rate of exactly 1 is not, and every index of the
series (index 0 included) is scanned. -/
theorem c5_findCliffs_exact (grid rs : List ℚ) (i : ℕ) :
    (∃ p ∈ findCliffs grid rs 1, p.incomeIndex = i) ↔
      i < rs.length ∧ 1 < |rs.getD i 0| := by
  unfold findCliffs
  constructor
  · rintro ⟨p, hp, rfl⟩
    obtain ⟨j, hj, hjp⟩ := List.mem_filterMap.mp hp
    rw [List.mem_range] at hj
    by_cases hc : (1:ℚ) < |rs.getD j 0|
    · rw [if_pos hc, Option.some.injEq] at hjp
      rw [← hjp]
      exact ⟨hj, hc⟩
    · rw [if_neg hc] at hjp
      exact absurd hjp (Option.noConfusion)
  · rintro ⟨hi, hc⟩
    refine ⟨⟨i, grid.getD i 0, rs.getD i 0⟩,
      List.mem_filterMap.mpr ⟨i, List.mem_range.mpr hi, ?_⟩, rfl⟩
    rw [if_pos hc]

/-- C6: the phase-out benefit is non-increasing and Lipschitz (hence
continuous) past the threshold, vanishes exactly at
`threshold + benefitAmount / phaseOutRate`, and on the example scenario
reaches 0 at income 40000 and 2500 at income 35000. -/
theorem c6_phase_out_shape (b th r : ℚ) (hb : 0 ≤ b) (hr : 0 < r) :
    (∀ y₁ y₂ : ℚ, th < y₁ → y₁ ≤ y₂ →
        computeBenefit y₂ b th r phase_out ≤ computeBenefit y₁ b th r phase_out ∧
        computeBenefit y₁ b th r phase_out - computeBenefit y₂ b th r phase_out
          ≤ r * (y₂ - y₁)) ∧
    computeBenefit (th + b / r) b th r phase_out = 0 ∧
    computeBenefit 40000 5000 30000 (1/2) phase_out = 0 ∧
    computeBenefit 35000 5000 30000 (1/2) phase_out = 2500 := by
  refine ⟨?_, ?_, by norm_num [computeBenefit], by norm_num [computeBenefit]⟩
  · intro y₁ y₂ h1 h12
    rw [computeBenefit_phase_out_eq y₁ b th r hr hb,
      computeBenefit_phase_out_eq y₂ b th r hr hb]
    have hmono := clampQ_mono th (th + b / r) y₁ y₂ h12
    have hlip := clampQ_sub_le th (th + b / r) y₁ y₂ h12
    constructor
    · have : (th + b / r) - clampQ th (th + b / r) y₂
          ≤ (th + b / r) - clampQ th (th + b / r) y₁ := by linarith
      exact mul_le_mul_of_nonneg_left this (le_of_lt hr)
    · have h3 : r * (clampQ th (th + b / r) y₂ - clampQ th (th + b / r) y₁)
          ≤ r * (y₂ - y₁) := mul_le_mul_of_nonneg_left hlip (le_of_lt hr)
      nlinarith [h3]
  · rw [computeBenefit_phase_out_eq _ b th r hr hb]
    have hthZ : th ≤ th + b / r := by
      have h0 : 0 ≤ b / r := div_nonneg hb (le_of_lt hr)
      linarith
    rw [clampQ_of_ge _ _ _ hthZ le_rfl]
    ring

/-- Witness for C6 at the example parameters. -/
theorem c6_phase_out_shape_witness :
    ((0:ℚ) ≤ 5000 ∧ (0:ℚ) < 1/2) ∧
    ((∀ y₁ y₂ : ℚ, (30000:ℚ) < y₁ → y₁ ≤ y₂ →
        computeBenefit y₂ 5000 30000 (1/2) phase_out
          ≤ computeBenefit y₁ 5000 30000 (1/2) phase_out ∧
        computeBenefit y₁ 5000 30000 (1/2) phase_out
            - computeBenefit y₂ 5000 30000 (1/2) phase_out
          ≤ 1/2 * (y₂ - y₁)) ∧
     computeBenefit (30000 + 5000 / (1/2)) 5000 30000 (1/2) phase_out = 0 ∧
     computeBenefit 40000 5000 30000 (1/2) phase_out = 0 ∧
     computeBenefit 35000 5000 30000 (1/2) phase_out = 2500) :=
  ⟨by norm_num, c6_phase_out_shape 5000 30000 (1/2) (by norm_num) (by norm_num)⟩

/-- C7: the universal benefit equals the benefit amount at every nonnegative
income and its marginal-rate series vanishes at every grid point. -/
theorem c7_universal_flat (b th r income : ℚ) (incomes : List ℚ)
    (hinc : 0 ≤ income) :
    computeBenefit income b th r universal = b ∧
    computeMtr incomes b th r universal = incomes.map fun _ => 0 := by
  refine ⟨rfl, ?_⟩
  unfold computeMtr
  apply List.map_congr_left
  intro y hy
  simp [computeBenefit]

/-- Witness for C7 on a small grid at income 0. -/
theorem c7_universal_flat_witness :
    (0:ℚ) ≤ 0 ∧
    (computeBenefit 0 5000 30000 (1/2) universal = 5000 ∧
     computeMtr [0, 100, 200] 5000 30000 (1/2) universal
        = ([0, 100, 200] : List ℚ).map fun _ => 0) :=
  ⟨le_rfl, c7_universal_flat 5000 30000 (1/2) 0 [0, 100, 200] le_rfl⟩

/-- C8: below the threshold the extended present value is non-decreasing in
the number of extension periods. -/
theorem c8_pv_monotone (income b th d : ℚ) (T : ℕ)
    (hb : 0 ≤ b) (hd : 0 ≤ d) (hinc : income ≤ th) :
    computePvBenefits income b th T d true
      ≤ computePvBenefits income b th (T + 1) d true := by
  unfold computePvBenefits
  simp only [Bool.not_true, Bool.false_eq_true, if_false, if_pos hinc]
  apply Finset.sum_le_sum_of_subset_of_nonneg
  · exact Finset.range_subset.mpr (by omega)
  · intro t _ _
    exact div_nonneg hb (pow_nonneg (by linarith) t)

/-- Witness for C8 at three extension periods. -/
theorem c8_pv_monotone_witness :
    ((0:ℚ) ≤ 5000 ∧ (0:ℚ) ≤ 1/20 ∧ (20000:ℚ) ≤ 30000) ∧
    computePvBenefits 20000 5000 30000 3 (1/20) true
      ≤ computePvBenefits 20000 5000 30000 (3 + 1) (1/20) true :=
  ⟨by norm_num,
   c8_pv_monotone 20000 5000 30000 (1/20) 3 (by norm_num) (by norm_num) (by norm_num)⟩

/-- C9 counterexample: the extended entry cliff at 3 periods, 5% discount and
benefit 5000 equals 172405000/9261 which is more than 22 away from the spec
figure 18594 — it is approximately 18616, not 18594. -/
theorem c9_counterexample :
    extCliffVal 3 (1/20) 5000 = 172405000 / 9261 ∧
    ¬ |extCliffVal 3 (1/20) 5000 - 18594| ≤ 22 := by
  have h : extCliffVal 3 (1/20) 5000 = 172405000 / 9261 := by
    unfold extCliffVal
    rw [show 1 + 3 = 4 from rfl]
    rw [Finset.sum_range_succ, Finset.sum_range_succ, Finset.sum_range_succ,
      Finset.sum_range_one]
    norm_num
  refine ⟨h, ?_⟩
  rw [h, abs_le]
  intro hcon
  obtain ⟨-, h2⟩ := hcon
  norm_num at h2

/-- C9 amended: the extended entry cliff at 3 periods, 5% discount and
benefit 5000 equals 5000 (1 + 1/1.05 + 1/1.05^2 + 1/1.05^3), which is
approximately 18616 (within half a unit). -/
theorem c9_extCliffVal_value :
    extCliffVal 3 (1/20) 5000
        = 5000 * (1 + 1 / (21/20) + 1 / ((21/20)^2) + 1 / ((21/20)^3)) ∧
    |extCliffVal 3 (1/20) 5000 - 18616| ≤ 1/2 := by
  have h : extCliffVal 3 (1/20) 5000 = 172405000 / 9261 := by
    unfold extCliffVal
    rw [show 1 + 3 = 4 from rfl]
    rw [Finset.sum_range_succ, Finset.sum_range_succ, Finset.sum_range_succ,
      Finset.sum_range_one]
    norm_num
  rw [h]
  constructor
  · norm_num
  · rw [abs_le]
    norm_num

/-- C10: for every design, income and parameters with nonnegative benefit
amount and phase-out rate, the computed benefit lies between 0 and the
benefit amount. -/
theorem c10_computeBenefit_bounds (income b th r : ℚ) (d : Design)
    (hb : 0 ≤ b) (hr : 0 ≤ r) :
    0 ≤ computeBenefit income b th r d ∧ computeBenefit income b th r d ≤ b := by
  cases d with
  | cliff =>
    have he : computeBenefit income b th r cliff
        = if income ≤ th then b else 0 := rfl
    rw [he]
    by_cases h : income ≤ th
    · simp [h, hb]
    · simp [h, hb]
  | phase_out =>
    have he : computeBenefit income b th r phase_out
        = if income ≤ th then b else max (b - r * (income - th)) 0 := rfl
    rw [he]
    by_cases h : income ≤ th
    · simp [h, hb]
    · rw [if_neg h]
      push_neg at h
      constructor
      · exact le_max_right _ _
      · apply max_le _ hb
        nlinarith [mul_nonneg hr (by linarith : (0:ℚ) ≤ income - th)]
  | universal => exact ⟨hb, le_rfl⟩

/-- Witness for C10 at the phase-out example point. -/
theorem c10_computeBenefit_bounds_witness :
    ((0:ℚ) ≤ 5000 ∧ (0:ℚ) ≤ 1/2) ∧
    (0 ≤ computeBenefit 35000 5000 30000 (1/2) phase_out ∧
     computeBenefit 35000 5000 30000 (1/2) phase_out ≤ 5000) :=
  ⟨by norm_num,
   c10_computeBenefit_bounds 35000 5000 30000 (1/2) phase_out
     (by norm_num) (by norm_num)⟩

set_option maxHeartbeats 1000000 in
/-- C2: for the phase-out design with benefit amount 5000 and threshold
30000, any phase-out rate in (0,1], and any uniform grid from 0 with step
at most 100 whose last point covers the phase-out range, the conservation
integral computed by `computeMtr` then `computeIntegral` is within 1%
(that is, 50) of the benefit amount 5000. -/
theorem c2_conservation_phase_out (r h : ℚ) (n : ℕ)
    (hr0 : 0 < r) (hr1 : r ≤ 1) (hh0 : 0 < h) (hh1 : h ≤ 100)
    (hcov : 30000 + 5000 / r ≤ ((n - 1 : ℕ) : ℚ) * h) :
    |computeIntegral ((List.range n).map fun i : ℕ => (i : ℚ) * h)
        (computeMtr ((List.range n).map fun i : ℕ => (i : ℚ) * h)
          5000 30000 r phase_out)
      - 5000| ≤ 50 := by
  set grid : List ℚ := (List.range n).map fun i : ℕ => (i : ℚ) * h with hgrid
  set Z : ℚ := 30000 + 5000 / r with hZdef
  set m : ℕ := n - 1 with hmdef
  have hbr : r * (5000 / r) = 5000 := by field_simp
  have hthZ : (30000:ℚ) ≤ Z := by
    have h0 : (0:ℚ) ≤ 5000 / r := le_of_lt (div_pos (by norm_num) hr0)
    rw [hZdef]
    linarith
  -- grid access
  have hget : ∀ i : ℕ, i < n → grid.getD i 0 = (i : ℚ) * h := by
    intro i hi
    rw [hgrid, List.getD_eq_getElem?_getD, List.getElem?_map,
      List.getElem?_range hi]
    rfl
  have hlen : grid.length = n := by
    rw [hgrid, List.length_map, List.length_range]
  have hmtr : ∀ i : ℕ, i < n →
      (computeMtr grid 5000 30000 r phase_out).getD i 0
        = computeBenefit ((i:ℚ)*h) 5000 30000 r phase_out
            - computeBenefit ((i:ℚ)*h + 100) 5000 30000 r phase_out := by
    intro i hi
    rw [hgrid]
    unfold computeMtr
    rw [List.getD_eq_getElem?_getD, List.getElem?_map, List.getElem?_map,
      List.getElem?_range hi]
    show -(computeBenefit ((i:ℚ)*h + 100) 5000 30000 r phase_out
        - computeBenefit ((i:ℚ)*h) 5000 30000 r phase_out) / 100 * 100 = _
    ring
  -- the integral as a structured sum
  have hI : computeIntegral grid (computeMtr grid 5000 30000 r phase_out)
      = ∑ i ∈ Finset.range m,
          (computeBenefit ((i:ℚ)*h) 5000 30000 r phase_out
            - computeBenefit ((i:ℚ)*h + 100) 5000 30000 r phase_out)
            / 100 * h := by
    unfold computeIntegral
    rw [hlen, ← hmdef]
    apply Finset.sum_congr rfl
    intro i hi
    rw [Finset.mem_range] at hi
    have hi1 : i < n := by omega
    have hi2 : i + 1 < n := by omega
    rw [hmtr i hi1, hget i hi1, hget (i+1) hi2]
    push_cast
    ring
  -- closed form of the forward difference via the clamp
  have hBc : ∀ y : ℚ,
      computeBenefit y 5000 30000 r phase_out
          - computeBenefit (y + 100) 5000 30000 r phase_out
        = r * (clampQ 30000 Z (y + 100) - clampQ 30000 Z y) := by
    intro y
    rw [computeBenefit_phase_out_eq y 5000 30000 r hr0 (by norm_num),
      computeBenefit_phase_out_eq (y+100) 5000 30000 r hr0 (by norm_num),
      ← hZdef]
    ring
  -- step decomposition 100 = q h + s with 0 ≤ s < h
  set q : ℕ := ⌊(100:ℚ) / h⌋₊ with hqdef
  set s : ℚ := 100 - (q:ℚ) * h with hsdef
  have hq1 : (1:ℚ) ≤ (q:ℚ) := by
    have : (1:ℕ) ≤ q := by
      rw [hqdef]
      apply Nat.le_floor
      rw [Nat.cast_one, le_div_iff₀ hh0]
      linarith
    exact_mod_cast this
  have hqh : (q:ℚ) * h ≤ 100 := by
    have hfl : ((q:ℕ):ℚ) ≤ 100 / h := by
      rw [hqdef]
      exact Nat.floor_le (le_of_lt (div_pos (by norm_num) hh0))
    have := mul_le_mul_of_nonneg_right hfl (le_of_lt hh0)
    rwa [div_mul_cancel₀ _ (ne_of_gt hh0)] at this
  have hs0 : (0:ℚ) ≤ s := by rw [hsdef]; linarith
  have hsh : s < h := by
    have hlt : (100:ℚ) / h < (q:ℚ) + 1 := by
      rw [hqdef]
      exact_mod_cast Nat.lt_floor_add_one ((100:ℚ) / h)
    have h2 : (100:ℚ) < ((q:ℚ) + 1) * h := by
      have := mul_lt_mul_of_pos_right hlt hh0
      rwa [div_mul_cancel₀ _ (ne_of_gt hh0)] at this
    rw [hsdef]
    nlinarith
  -- clamp series along the plain and shifted grids
  set c : ℕ → ℚ := fun j => clampQ 30000 Z ((j:ℚ) * h) with hcdef
  set g : ℕ → ℚ := fun j => clampQ 30000 Z ((j:ℚ) * h + s) with hgdef
  have hshift : ∀ i : ℕ, clampQ 30000 Z ((i:ℚ) * h + 100) = g (q + i) := by
    intro i
    simp only [hgdef]
    congr 1
    push_cast
    rw [hsdef]
    ring
  have hI2 : computeIntegral grid (computeMtr grid 5000 30000 r phase_out)
      = (r * h / 100) * ∑ i ∈ Finset.range m, (g (q + i) - c i) := by
    rw [hI, Finset.mul_sum]
    apply Finset.sum_congr rfl
    intro i _
    rw [hBc, ← hshift i]
    simp only [hcdef]
    ring
  -- realign the shifted sum: head is constant 30000, tail is constant Z
  have hgZ : ∀ i : ℕ, g (m + i) = Z := by
    intro i
    simp only [hgdef]
    apply clampQ_of_ge _ _ _ hthZ
    have hi0 : (0:ℚ) ≤ (i:ℚ) * h :=
      mul_nonneg (Nat.cast_nonneg i) (le_of_lt hh0)
    have : ((m + i : ℕ):ℚ) * h = (m:ℚ) * h + (i:ℚ) * h := by push_cast; ring
    rw [this]
    linarith [hcov]
  have hg30 : ∀ j : ℕ, j < q → g j = 30000 := by
    intro j hj
    simp only [hgdef]
    apply clampQ_of_le
    have hjq : (j:ℚ) * h ≤ (q:ℚ) * h - h := by
      have hle : (j:ℚ) + 1 ≤ (q:ℚ) := by exact_mod_cast Nat.succ_le_of_lt hj
      nlinarith
    rw [hsdef]
    linarith
  have hT : ∑ i ∈ Finset.range m, (g (q + i) - c i)
      = (∑ j ∈ Finset.range m, (g j - c j)) + (q:ℚ) * (Z - 30000) := by
    rw [Finset.sum_sub_distrib, Finset.sum_sub_distrib, sum_range_shift g q m]
    have h2 : ∑ j ∈ Finset.range (q + m), g j
        = ∑ j ∈ Finset.range m, g j + ∑ i ∈ Finset.range q, g (m + i) := by
      rw [Nat.add_comm q m]
      exact Finset.sum_range_add g m q
    have h4 : ∑ i ∈ Finset.range q, g (m + i) = (q:ℚ) * Z := by
      rw [Finset.sum_congr rfl fun i _ => hgZ i, Finset.sum_const,
        Finset.card_range, nsmul_eq_mul]
    have h5 : ∑ j ∈ Finset.range q, g j = (q:ℚ) * 30000 := by
      rw [Finset.sum_congr rfl fun j hj => hg30 j (Finset.mem_range.mp hj),
        Finset.sum_const, Finset.card_range, nsmul_eq_mul]
    rw [h2, h4, h5]
    ring
  -- telescoping of the per-cell overlaps
  have hcm : c m = Z := by
    simp only [hcdef]
    exact clampQ_of_ge _ _ _ hthZ hcov
  have hc0 : c 0 = 30000 := by
    simp only [hcdef]
    rw [Nat.cast_zero, zero_mul]
    exact clampQ_of_le _ _ _ (by norm_num)
  have hE : ∑ j ∈ Finset.range m, (c (j+1) - c j) = Z - 30000 := by
    rw [Finset.sum_range_sub c m, hcm, hc0]
  -- per-cell error terms vanish away from the two boundary cells
  set F : ℕ → ℚ := fun j => h * (g j - c j) - s * (c (j+1) - c j) with hFdef
  have hcast : ∀ j : ℕ, ((j + 1 : ℕ):ℚ) * h = (j:ℚ) * h + h := by
    intro j; push_cast; ring
  have hc1 : ∀ j : ℕ, c (j+1) = clampQ 30000 Z ((j:ℚ) * h + h) := by
    intro j
    simp only [hcdef]
    rw [hcast]
  have hFbound : ∀ j : ℕ, |F j| ≤ h * s := by
    intro j
    have hys : (j:ℚ) * h ≤ (j:ℚ) * h + s := by linarith
    have hyh : (j:ℚ) * h ≤ (j:ℚ) * h + h := by linarith
    have hd0 : 0 ≤ g j - c j := by
      simp only [hgdef, hcdef]
      have hmo := clampQ_mono 30000 Z ((j:ℚ) * h) ((j:ℚ) * h + s) hys
      linarith
    have hds : g j - c j ≤ s := by
      simp only [hgdef, hcdef]
      have hsl := clampQ_sub_le 30000 Z ((j:ℚ) * h) ((j:ℚ) * h + s) hys
      linarith
    have he0 : 0 ≤ c (j+1) - c j := by
      rw [hc1]
      simp only [hcdef]
      have hmo := clampQ_mono 30000 Z ((j:ℚ) * h) ((j:ℚ) * h + h) hyh
      linarith
    have heh : c (j+1) - c j ≤ h := by
      rw [hc1]
      simp only [hcdef]
      have hsl := clampQ_sub_le 30000 Z ((j:ℚ) * h) ((j:ℚ) * h + h) hyh
      linarith
    have p1 : 0 ≤ h * (g j - c j) := mul_nonneg (le_of_lt hh0) hd0
    have p2 : h * (g j - c j) ≤ h * s :=
      mul_le_mul_of_nonneg_left hds (le_of_lt hh0)
    have p3 : 0 ≤ s * (c (j+1) - c j) := mul_nonneg hs0 he0
    have p4 : s * (c (j+1) - c j) ≤ s * h :=
      mul_le_mul_of_nonneg_left heh hs0
    simp only [hFdef]
    rw [abs_le]
    constructor
    · linarith
    · linarith
  set a1 : ℕ := ⌊(30000:ℚ) / h⌋₊ with ha1def
  set a2 : ℕ := ⌊Z / h⌋₊ with ha2def
  have hFzero : ∀ j : ℕ, j ≠ a1 → j ≠ a2 → F j = 0 := by
    intro j hj1 hj2
    simp only [hFdef, hgdef, hcdef]
    by_cases hA : (j:ℚ) * h + h ≤ 30000
    · rw [clampQ_of_le _ _ _ (by linarith : (j:ℚ) * h + s ≤ 30000),
        clampQ_of_le _ _ _ (by linarith : (j:ℚ) * h ≤ 30000),
        clampQ_of_le _ _ _ (by rw [hcast]; linarith :
          ((j + 1 : ℕ):ℚ) * h ≤ 30000)]
      ring
    · by_cases hB : Z ≤ (j:ℚ) * h
      · rw [clampQ_of_ge _ _ _ hthZ (by linarith : Z ≤ (j:ℚ) * h + s),
          clampQ_of_ge _ _ _ hthZ hB,
          clampQ_of_ge _ _ _ hthZ (by rw [hcast]; linarith :
            Z ≤ ((j + 1 : ℕ):ℚ) * h)]
        ring
      · push_neg at hA hB
        by_cases hC : (30000:ℚ) ≤ (j:ℚ) * h
        · by_cases hD : ((j:ℚ) + 1) * h ≤ Z
          · rw [clampQ_of_mem _ _ _ (by linarith) (by nlinarith :
                (j:ℚ) * h + s ≤ Z),
              clampQ_of_mem _ _ _ hC (by linarith),
              clampQ_of_mem _ _ _ (by rw [hcast]; linarith :
                  (30000:ℚ) ≤ ((j + 1 : ℕ):ℚ) * h)
                (by rw [hcast]; nlinarith : ((j + 1 : ℕ):ℚ) * h ≤ Z)]
            push_cast
            ring
          · exfalso
            apply hj2
            rw [ha2def]
            have hZh0 : (0:ℚ) ≤ Z / h :=
              div_nonneg (by linarith) (le_of_lt hh0)
            symm
            rw [Nat.floor_eq_iff hZh0]
            push_neg at hD
            constructor
            · rw [le_div_iff₀ hh0]
              linarith
            · rw [div_lt_iff₀ hh0]
              linarith
        · exfalso
          apply hj1
          push_neg at hC
          rw [ha1def]
          symm
          rw [Nat.floor_eq_iff (div_nonneg (by norm_num) (le_of_lt hh0))]
          constructor
          · rw [le_div_iff₀ hh0]
            linarith
          · rw [div_lt_iff₀ hh0]
            linarith
  -- the total error is at most two boundary cells
  have hFsum : |∑ j ∈ Finset.range m, F j| ≤ 2 * (h * s) := by
    set sfil : Finset ℕ := (Finset.range m).filter (fun j => j = a1 ∨ j = a2)
      with hsfil
    have hsub : ∑ j ∈ Finset.range m, F j = ∑ j ∈ sfil, F j := by
      rw [hsfil]
      symm
      apply Finset.sum_filter_of_ne
      intro x _ hFx
      by_contra hcon
      push_neg at hcon
      exact hFx (hFzero x hcon.1 hcon.2)
    have hcard : sfil.card ≤ 2 := by
      have hss : sfil ⊆ ({a1, a2} : Finset ℕ) := by
        intro x hx
        rw [hsfil, Finset.mem_filter] at hx
        rw [Finset.mem_insert, Finset.mem_singleton]
        exact hx.2
      calc sfil.card
          ≤ ({a1, a2} : Finset ℕ).card := Finset.card_le_card hss
        _ ≤ ({a2} : Finset ℕ).card + 1 := Finset.card_insert_le a1 {a2}
        _ = 2 := by rw [Finset.card_singleton]
    have habs : |∑ j ∈ sfil, F j| ≤ ∑ j ∈ sfil, |F j| :=
      Finset.abs_sum_le_sum_abs _ _
    have hsumle : ∑ j ∈ sfil, |F j| ≤ ∑ _j ∈ sfil, (h * s) :=
      Finset.sum_le_sum fun j _ => hFbound j
    have hconst : ∑ _j ∈ sfil, (h * s) = (sfil.card : ℚ) * (h * s) := by
      rw [Finset.sum_const, nsmul_eq_mul]
    have hcardle : (sfil.card : ℚ) * (h * s) ≤ 2 * (h * s) := by
      apply mul_le_mul_of_nonneg_right _ (mul_nonneg (le_of_lt hh0) hs0)
      exact_mod_cast hcard
    rw [hsub]
    linarith
  -- assemble the integral around the exact value 5000
  have hqh' : (q:ℚ) * h = 100 - s := by rw [hsdef]; ring
  have hZ30 : r * (Z - 30000) = 5000 := by
    rw [hZdef]
    rw [show (30000:ℚ) + 5000 / r - 30000 = 5000 / r by ring]
    exact hbr
  have hFsum_eq : ∑ j ∈ Finset.range m, F j
      = h * (∑ j ∈ Finset.range m, (g j - c j)) - s * (Z - 30000) := by
    simp only [hFdef]
    rw [Finset.sum_sub_distrib, ← Finset.mul_sum, ← Finset.mul_sum, hE]
  have hfinal : computeIntegral grid (computeMtr grid 5000 30000 r phase_out)
      - 5000 = r * (∑ j ∈ Finset.range m, F j) / 100 := by
    rw [hI2, hT]
    linear_combination (-(r / 100)) * hFsum_eq
      + (r * (Z - 30000) / 100) * hqh' + hZ30
  rw [hfinal, abs_div, abs_mul, abs_of_pos hr0,
    abs_of_pos (by norm_num : (0:ℚ) < 100),
    div_le_iff₀ (by norm_num : (0:ℚ) < 100)]
  have hr_abs : r * |∑ j ∈ Finset.range m, F j| ≤ |∑ j ∈ Finset.range m, F j| :=
    mul_le_of_le_one_left (abs_nonneg _) hr1
  have h2hs : 2 * (h * s) ≤ 5000 := by
    have hhle : h ≤ 100 - s := by
      have := mul_le_mul_of_nonneg_right hq1 (le_of_lt hh0)
      rw [one_mul] at this
      linarith [hqh']
    nlinarith [mul_le_mul_of_nonneg_right hhle hs0, sq_nonneg (s - 50)]
  linarith

/-- Witness for C2: rate 1/2, step 100, and the uniform grid 0, 100, ...,
40100 covering the phase-out range up to 40000. -/
theorem c2_conservation_phase_out_witness :
    ((0:ℚ) < 1/2 ∧ (1/2:ℚ) ≤ 1 ∧ (0:ℚ) < 100 ∧ (100:ℚ) ≤ 100 ∧
      (30000:ℚ) + 5000 / (1/2) ≤ ((402 - 1 : ℕ) : ℚ) * 100) ∧
    |computeIntegral ((List.range 402).map fun i : ℕ => (i : ℚ) * 100)
        (computeMtr ((List.range 402).map fun i : ℕ => (i : ℚ) * 100)
          5000 30000 (1/2) phase_out)
      - 5000| ≤ 50 :=
  ⟨by norm_num,
   c2_conservation_phase_out (1/2) 100 402 (by norm_num) (by norm_num)
     (by norm_num) (by norm_num) (by norm_num)⟩

end MoBenefits
